import Mathlib

/-!
# selfdrive/ui/qt/spinner.cc

A shallow embedding of the status panel of the spinner process
(`Spinner::Spinner` and `Spinner::update`) together with the library
operations the two functions call: `::isdigit`, `std::all_of`, `std::stoi`,
`QLabel::setText`, `QWidget::setVisible`, `QProgressBar::setRange` and
`QProgressBar::setValue`.

* An input line is the text `std::getline` hands to `update`, a `String`;
  `QString::fromStdString` is the identity on it.
* A widget is a record of the properties `update` reads or writes; `visible`
  is the flag `setVisible` sets. The record is passed in and returned.
* A C++ exception is an `Except.error`; nothing in `update` catches one, so a
  run of `update` calls ends at the first exception.
* The library operations follow their documentation: `std::stoi` throws
  `std::out_of_range` when the value read does not fit an `int`, and
  `QProgressBar::setValue` has no effect for a value outside the range of the
  bar.
* The animated track (`TrackWidget`) is driven by the animation clock of the
  toolkit and is not embedded.
-/

namespace SpinnerCc

/-! ## Library operations -/

/-- The exceptions `std::stoi` can throw. -/
inductive Exception where
  | invalid_argument
  | out_of_range
  deriving DecidableEq, Repr

/-- Largest value of the C++ type `int` (32 bits). -/
def INT_MAX : Int := 2147483647

/-- Smallest value of the C++ type `int` (32 bits). -/
def INT_MIN : Int := -2147483648

/-- The C function `::isdigit`: true exactly for the characters 0 to 9. -/
def isdigit (c : Char) : Bool :=
  decide (48 ≤ c.toNat ∧ c.toNat ≤ 57)

/-- The C function `::isspace` in the C locale: space, and the control
characters tab, line feed, vertical tab, form feed, carriage return. -/
def isspace (c : Char) : Bool :=
  decide (c.toNat = 32 ∨ (9 ≤ c.toNat ∧ c.toNat ≤ 13))

/-- Value of a run of decimal digits read left to right in base 10, the
accumulation loop of `strtol`. -/
def digitsValue (ds : List Char) : Nat :=
  ds.foldl (fun acc c => 10 * acc + (c.toNat - 48)) 0

/-- The function `std::stoi(str)` with its default base 10: skip leading white
space, take an optional sign, read the longest run of digits. Without a
digit it throws `invalid_argument`; when the value does not fit an `int` it
throws `out_of_range`. -/
def stoi (str : String) : Except Exception Int :=
  let cs := str.data.dropWhile isspace
  let signed : Bool × List Char :=
    match cs with
    | '-' :: rest => (true, rest)
    | '+' :: rest => (false, rest)
    | _ => (false, cs)
  let ds := signed.2.takeWhile isdigit
  if ds.isEmpty then
    .error Exception.invalid_argument
  else
    let n : Int := (digitsValue ds : Nat)
    let v : Int := if signed.1 then -n else n
    if v < INT_MIN ∨ INT_MAX < v then
      .error Exception.out_of_range
    else
      .ok v

/-! ## Widgets -/

/-- The part of a `QLabel` the panel uses: the shown/hidden flag set by
`setVisible` and the text content. -/
structure QLabel where
  visible : Bool
  text : String
  deriving DecidableEq, Repr

/-- The part of a `QProgressBar` the panel uses: the shown/hidden flag set by
`setVisible`, the range and the current value. -/
structure QProgressBar where
  visible : Bool
  minimum : Int
  maximum : Int
  value : Int
  deriving DecidableEq, Repr

/-- A freshly constructed `QLabel()`: not shown, empty text. -/
def QLabel.new : QLabel :=
  { visible := false, text := "" }

/-- The method `QWidget::setVisible` on a label. -/
def QLabel.setVisible (w : QLabel) (visible : Bool) : QLabel :=
  { w with visible := visible }

/-- The method `QLabel::setText`. -/
def QLabel.setText (w : QLabel) (text : String) : QLabel :=
  { w with text := text }

/-- A freshly constructed `QProgressBar()`: not shown, range 0 to 100,
value -1. -/
def QProgressBar.new : QProgressBar :=
  { visible := false, minimum := 0, maximum := 100, value := -1 }

/-- The method `QWidget::setVisible` on a progress bar. -/
def QProgressBar.setVisible (w : QProgressBar) (visible : Bool) : QProgressBar :=
  { w with visible := visible }

/-- The method `QProgressBar::reset`: the value goes back to one below the
minimum (to `INT_MIN` when that is the minimum). -/
def QProgressBar.reset (w : QProgressBar) : QProgressBar :=
  { w with value := if w.minimum = INT_MIN then INT_MIN else w.minimum - 1 }

/-- The method `QProgressBar::setRange`: the maximum is raised to the minimum
when it lies below it, and a value that falls outside the new range resets
the bar. -/
def QProgressBar.setRange (w : QProgressBar) (minimum maximum : Int) : QProgressBar :=
  if minimum ≠ w.minimum ∨ maximum ≠ w.maximum then
    let w1 : QProgressBar := { w with minimum := minimum, maximum := max minimum maximum }
    if w1.value < w1.minimum - 1 ∨ w1.value > w1.maximum then w1.reset else w1
  else
    w

/-- The method `QProgressBar::setValue`: a value outside the range has no
effect on the current value (unless minimum and maximum are both 0);
otherwise it becomes the current value. -/
def QProgressBar.setValue (w : QProgressBar) (value : Int) : QProgressBar :=
  if w.value = value
      ∨ ((value > w.maximum ∨ value < w.minimum) ∧ (w.maximum ≠ 0 ∨ w.minimum ≠ 0)) then
    w
  else
    { w with value := value }

/-! ## The status panel -/

/-- The widgets owned by the `Spinner` window that `update` touches. -/
structure Spinner where
  text : QLabel
  progress_bar : QProgressBar
  deriving DecidableEq, Repr

namespace Spinner

/-- The constructor `Spinner::Spinner`: the label is created and hidden, the
progress bar is created with range 5 to 100 and hidden. -/
def new : Spinner :=
  let text := QLabel.new
  let text := text.setVisible false
  let progress_bar := QProgressBar.new
  let progress_bar := progress_bar.setRange 5 100
  let progress_bar := progress_bar.setVisible false
  { text := text, progress_bar := progress_bar }

/-- The classification `std::all_of(line.begin(), line.end(), ::isdigit)`. -/
def isNumber (line : String) : Bool :=
  line.data.all isdigit

/-- The slot `Spinner::update`, applied to the line `std::getline` produced. -/
def update (s : Spinner) (line : String) : Except Exception Spinner :=
  if line.length ≠ 0 then
    let number := isNumber line
    let text := s.text.setVisible (!number)
    let progress_bar := s.progress_bar.setVisible number
    let text := text.setText line
    if number then
      match stoi line with
      | .ok v => .ok { text := text, progress_bar := progress_bar.setValue v }
      | .error e => .error e
    else
      .ok { text := text, progress_bar := progress_bar }
  else
    .ok s

/-- The slot run once per input line, in order; an exception ends the run. -/
def processLines (s : Spinner) : List String → Except Exception Spinner
  | [] => .ok s
  | line :: rest =>
    match update s line with
    | .ok s1 => processLines s1 rest
    | .error e => .error e

/-- The last non-empty line of a sequence, if there is one. -/
def lastNonEmpty (lines : List String) : Option String :=
  (lines.filter (fun l => l.length ≠ 0)).getLast?

/-- The string made of `k` characters 0. -/
def zeros (k : Nat) : String :=
  String.mk (List.replicate k '0')

/-! ## Library lemmas -/

theorem length_ne_zero_of_ne_empty {line : String} (h : line ≠ "") : line.length ≠ 0 := by
  obtain ⟨cs⟩ := line
  intro h0
  apply h
  have : cs = [] := List.length_eq_zero.mp h0
  subst this
  rfl

theorem data_ne_nil_of_ne_empty {line : String} (h : line ≠ "") : line.data ≠ [] := by
  obtain ⟨cs⟩ := line
  intro h0
  apply h
  simp only at h0
  subst h0
  rfl

theorem isNumber_eq_true_iff (line : String) :
    isNumber line = true ↔ ∀ c ∈ line.data, isdigit c = true := by
  simp [isNumber, List.all_eq_true]

theorem isNumber_eq_false_iff (line : String) :
    isNumber line = false ↔ ∃ c ∈ line.data, isdigit c = false := by
  simp [isNumber, List.all_eq_false]

theorem not_isspace_of_isdigit {c : Char} (h : isdigit c = true) : isspace c = false := by
  simp only [isdigit, decide_eq_true_eq] at h
  simp only [isspace, decide_eq_false_iff_not]
  omega

theorem ne_sign_of_isdigit {c : Char} (h : isdigit c = true) : c ≠ '-' ∧ c ≠ '+' := by
  constructor <;> (intro hc; subst hc; revert h; decide)

theorem takeWhile_eq_self_of_all {p : Char → Bool} :
    ∀ (cs : List Char), (∀ c ∈ cs, p c = true) → cs.takeWhile p = cs
  | [], _ => rfl
  | c :: cs, h => by
    have hc : p c = true := h c (List.mem_cons_self c cs)
    have ih := takeWhile_eq_self_of_all cs (fun d hd => h d (List.mem_cons_of_mem c hd))
    simp [List.takeWhile, hc, ih]

/-- On a non-empty digit-only string `stoi` reads the whole string: it throws
`out_of_range` when the decimal value exceeds `INT_MAX` and returns the value
otherwise. -/
theorem stoi_of_digits (line : String) (hne : line ≠ "")
    (hdig : ∀ c ∈ line.data, isdigit c = true) :
    stoi line =
      if INT_MAX < (digitsValue line.data : Int) then .error Exception.out_of_range
      else .ok (digitsValue line.data : Int) := by
  obtain ⟨cs⟩ := line
  have hnil : cs ≠ [] := data_ne_nil_of_ne_empty hne
  simp only at hdig
  match cs, hnil, hdig with
  | c :: cs, _, hdig =>
    have hc : isdigit c = true := hdig c (List.mem_cons_self c cs)
    have hsp : isspace c = false := not_isspace_of_isdigit hc
    have hsg := ne_sign_of_isdigit hc
    have htw : (c :: cs).takeWhile isdigit = c :: cs := takeWhile_eq_self_of_all _ hdig
    have hdrop : (c :: cs).dropWhile isspace = c :: cs := by
      simp [List.dropWhile, hsp]
    have hmatch : (match c :: cs with
        | '-' :: rest => (true, rest)
        | '+' :: rest => (false, rest)
        | _ => (false, c :: cs)) = (false, c :: cs) := by
      split
      · rename_i heq
        exact absurd (List.cons.inj heq).1 hsg.1
      · rename_i heq
        exact absurd (List.cons.inj heq).1 hsg.2
      · rfl
    have hnonneg : ¬ ((digitsValue (c :: cs) : Int) < INT_MIN) := by
      have : (0 : Int) ≤ (digitsValue (c :: cs) : Int) := Int.ofNat_nonneg _
      simp only [INT_MIN]
      omega
    simp only [stoi, hdrop, hmatch, htw, List.isEmpty_cons, Bool.false_eq_true, if_false,
      hnonneg, false_or]

/-! ## One call of `update` -/

/-- What `update` does on a non-empty digit-only line. -/
theorem update_of_digits (s : Spinner) (line : String) (hne : line ≠ "")
    (hdig : ∀ c ∈ line.data, isdigit c = true) :
    update s line =
      if INT_MAX < (digitsValue line.data : Int) then .error Exception.out_of_range
      else .ok
        { text := { visible := false, text := line }
          progress_bar :=
            QProgressBar.setValue { s.progress_bar with visible := true }
              (digitsValue line.data : Int) } := by
  have hlen : line.length ≠ 0 := length_ne_zero_of_ne_empty hne
  have hnum : isNumber line = true := (isNumber_eq_true_iff line).mpr hdig
  simp only [update, hlen, ne_eq, not_false_eq_true, if_true, hnum, stoi_of_digits line hne hdig,
    QLabel.setVisible, QLabel.setText, QProgressBar.setVisible, Bool.not_true]
  by_cases hbig : INT_MAX < (digitsValue line.data : Int)
  · simp only [hbig, if_true]
  · simp only [hbig, if_false]

/-- What `update` does on a line with a character that is not a digit. -/
theorem update_of_nondigit (s : Spinner) (line : String)
    (hnd : ∃ c ∈ line.data, isdigit c = false) :
    update s line =
      .ok
        { text := { visible := true, text := line }
          progress_bar := { s.progress_bar with visible := false } } := by
  have hnum : isNumber line = false := (isNumber_eq_false_iff line).mpr hnd
  have hlen : line.length ≠ 0 := by
    obtain ⟨c, hc, _⟩ := hnd
    obtain ⟨cs⟩ := line
    intro h0
    have : cs = [] := List.length_eq_zero.mp h0
    subst this
    simp at hc
  simp only [update, hlen, ne_eq, not_false_eq_true, if_true, hnum, QLabel.setVisible,
    QLabel.setText, QProgressBar.setVisible, Bool.not_false, Bool.false_eq_true, if_false]

/-- The method `setValue` touches neither the visibility nor the range. -/
theorem setValue_frame (w : QProgressBar) (v : Int) :
    (w.setValue v).visible = w.visible ∧ (w.setValue v).minimum = w.minimum ∧
      (w.setValue v).maximum = w.maximum := by
  unfold QProgressBar.setValue
  split <;> simp

/-- After a call of `update` that returns on a non-empty line, the label is
shown exactly when the line is not a number, the bar exactly when it is, and
the label holds the line. -/
theorem update_ok_shape (s s1 : Spinner) (line : String) (hlen : line.length ≠ 0)
    (h : update s line = .ok s1) :
    s1.text.visible = (!isNumber line) ∧ s1.progress_bar.visible = isNumber line ∧
      s1.text.text = line := by
  simp only [update, hlen, ne_eq, not_false_eq_true, if_true] at h
  cases hnum : isNumber line with
  | false =>
    simp only [hnum, Bool.false_eq_true, if_false, Except.ok.injEq] at h
    subst h
    simp [QLabel.setVisible, QLabel.setText, QProgressBar.setVisible]
  | true =>
    simp only [hnum, if_true] at h
    cases hst : stoi line with
    | error e => simp [hst] at h
    | ok v =>
      simp only [hst, Except.ok.injEq] at h
      subst h
      simp [QLabel.setVisible, QLabel.setText, QProgressBar.setVisible,
        (setValue_frame _ v).1]

/-- The empty line changes nothing. -/
theorem update_of_length_zero (s : Spinner) (line : String) (hlen : line.length = 0) :
    update s line = .ok s := by
  simp [update, hlen]

/-! ## Numeric lines -/

/-- C1 (as amended): for every non-empty line of decimal digits whose value is
at most `INT_MAX`, from every prior state whose bar has the configured range
5 to 100, `update` returns; afterwards the progress bar is shown, the label is
hidden, and the bar's value is the parsed integer when that lies in 5 to 100
and is the value it had before otherwise. -/
theorem update_numeric_line (s : Spinner) (line : String) (hne : line ≠ "")
    (hdig : ∀ c ∈ line.data, isdigit c = true)
    (hfit : (digitsValue line.data : Int) ≤ INT_MAX)
    (hmin : s.progress_bar.minimum = 5) (hmax : s.progress_bar.maximum = 100) :
    stoi line = .ok (digitsValue line.data : Int) ∧
    ∃ s1, update s line = .ok s1 ∧ s1.progress_bar.visible = true ∧ s1.text.visible = false ∧
      s1.progress_bar.value =
        if (5 : Int) ≤ digitsValue line.data ∧ (digitsValue line.data : Int) ≤ 100 then
          (digitsValue line.data : Int)
        else s.progress_bar.value := by
  have hbig : ¬ INT_MAX < (digitsValue line.data : Int) := not_lt.mpr hfit
  refine ⟨by rw [stoi_of_digits line hne hdig, if_neg hbig], ?_⟩
  rw [update_of_digits s line hne hdig, if_neg hbig]
  refine ⟨_, rfl, ?_, rfl, ?_⟩
  · exact (setValue_frame _ _).1
  · simp only [QProgressBar.setValue, hmin, hmax]
    split_ifs <;> first | (simp_all; done) | (simp_all; omega)

/-- C1 (witness): the line 50 from the constructed state. -/
theorem update_numeric_line_witness :
    stoi "50" = .ok 50 ∧
    ∃ s1, update Spinner.new "50" = .ok s1 ∧ s1.progress_bar.visible = true ∧
      s1.text.visible = false ∧ s1.progress_bar.value = 50 := by
  have h := update_numeric_line Spinner.new "50" (by decide) (by decide) (by decide) rfl rfl
  exact h

/-- C1 (counterexample): a parsed value outside 5 to 100 is not clamped. From
the constructed state the line 200 leaves the bar's value at 4, not 100; from
a state showing 50 the line 200 leaves 50, not 100, and the line 3 leaves 50,
not 5. -/
theorem update_numeric_not_clamped :
    update Spinner.new "200" = .ok ⟨⟨false, "200"⟩, ⟨true, 5, 100, 4⟩⟩ ∧
    update ⟨⟨false, "50"⟩, ⟨true, 5, 100, 50⟩⟩ "200" =
      .ok ⟨⟨false, "200"⟩, ⟨true, 5, 100, 50⟩⟩ ∧
    update ⟨⟨false, "50"⟩, ⟨true, 5, 100, 50⟩⟩ "3" =
      .ok ⟨⟨false, "3"⟩, ⟨true, 5, 100, 50⟩⟩ :=
  ⟨rfl, rfl, rfl⟩

/-- C3: on a digit-only line whose value exceeds `INT_MAX`, here twenty
nines, `update` does not return a display state: `std::stoi` throws
`out_of_range` and nothing in `update` catches it. -/
theorem update_throws_on_overflow (s : Spinner) :
    update s "99999999999999999999" = .error Exception.out_of_range ∧
    update s "2147483648" = .error Exception.out_of_range :=
  ⟨rfl, rfl⟩

/-! ## Text lines -/

/-- C10: a non-empty line with a character that is not a decimal digit leaves
the value of the progress bar as it was, from every prior state. -/
theorem text_line_keeps_bar_value (s : Spinner) (line : String) (hne : line ≠ "")
    (hnd : ∃ c ∈ line.data, isdigit c = false) :
    ∃ s1, update s line = .ok s1 ∧ s1.progress_bar.value = s.progress_bar.value := by
  have _hlen : line.length ≠ 0 := length_ne_zero_of_ne_empty hne
  exact ⟨_, update_of_nondigit s line hnd, rfl⟩

/-- C10 (witness): a status text after the bar was set to 50 keeps 50. -/
theorem text_line_keeps_bar_value_witness :
    "Installing drivers..." ≠ "" ∧ (∃ c ∈ "Installing drivers...".data, isdigit c = false) ∧
    ∃ s1, update ⟨⟨false, "50"⟩, ⟨true, 5, 100, 50⟩⟩ "Installing drivers..." = .ok s1 ∧
      s1.progress_bar.value = 50 :=
  ⟨by decide, by decide,
    text_line_keeps_bar_value ⟨⟨false, "50"⟩, ⟨true, 5, 100, 50⟩⟩ "Installing drivers..."
      (by decide) (by decide)⟩

/-! ## The empty line -/

/-- C4: on the empty line `update` returns the state it was given: both
visibilities, the label's content and the bar's value are unchanged. -/
theorem update_empty_line (s : Spinner) : update s "" = .ok s :=
  update_of_length_zero s "" rfl

/-! ## The label's content -/

theorem lastNonEmpty_cons (line : String) (rest : List String) :
    lastNonEmpty (line :: rest) =
      match lastNonEmpty rest with
      | some l => some l
      | none => if line.length ≠ 0 then some line else none := by
  unfold lastNonEmpty
  by_cases hl : line.length ≠ 0
  · have hf : (line :: rest).filter (fun l => decide (l.length ≠ 0))
        = line :: rest.filter (fun l => decide (l.length ≠ 0)) := by
      simp [List.filter_cons, hl]
    rw [hf, List.getLast?_cons]
    cases (rest.filter (fun l => decide (l.length ≠ 0))).getLast? <;> simp [hl]
  · have hf : (line :: rest).filter (fun l => decide (l.length ≠ 0))
        = rest.filter (fun l => decide (l.length ≠ 0)) := by
      simp [List.filter_cons, hl]
    rw [hf]
    cases (rest.filter (fun l => decide (l.length ≠ 0))).getLast? <;> simp [hl]

theorem lastNonEmpty_ne_none_of_mem (lines : List String)
    (h : ∃ l ∈ lines, l ≠ "") : lastNonEmpty lines ≠ none := by
  obtain ⟨l, hl, hne⟩ := h
  unfold lastNonEmpty
  intro hnone
  rw [List.getLast?_eq_none_iff] at hnone
  have hmem : l ∈ lines.filter (fun l => decide (l.length ≠ 0)) := by
    rw [List.mem_filter]
    exact ⟨hl, decide_eq_true (length_ne_zero_of_ne_empty hne)⟩
  rw [hnone] at hmem
  exact List.not_mem_nil l hmem

/-- After a run that returns, the two visibilities are those the last
non-empty line gives, or those of the start state when every line is empty. -/
theorem processLines_visibility (lines : List String) :
    ∀ (s0 s : Spinner), processLines s0 lines = .ok s →
      (s.text.visible, s.progress_bar.visible) =
        match lastNonEmpty lines with
        | none => (s0.text.visible, s0.progress_bar.visible)
        | some l => (!isNumber l, isNumber l) := by
  induction lines with
  | nil =>
    intro s0 s h
    simp only [processLines, Except.ok.injEq] at h
    subst h
    rfl
  | cons line rest ih =>
    intro s0 s h
    rw [lastNonEmpty_cons]
    simp only [processLines] at h
    cases hu : update s0 line with
    | error e => simp [hu] at h
    | ok s1 =>
      simp only [hu] at h
      have hrest := ih s1 s h
      cases hl : lastNonEmpty rest with
      | some l => simpa [hl] using hrest
      | none =>
        simp only [hl] at hrest ⊢
        by_cases hlen : line.length ≠ 0
        · have hs := update_ok_shape s0 s1 line hlen hu
          simp only [hlen, ne_eq, not_false_eq_true, if_true]
          rw [hrest, hs.1, hs.2.1]
        · have h0 : line.length = 0 := not_not.mp hlen
          rw [update_of_length_zero s0 line h0] at hu
          simp only [Except.ok.injEq] at hu
          subst hu
          simpa [h0] using hrest

/-- Empty lines can be dropped from a run without changing its outcome. -/
theorem processLines_filter (lines : List String) :
    ∀ (s0 : Spinner),
      processLines s0 (lines.filter (fun l => l.length ≠ 0)) = processLines s0 lines := by
  induction lines with
  | nil => intro s0; rfl
  | cons line rest ih =>
    intro s0
    by_cases hlen : line.length ≠ 0
    · have hf : (line :: rest).filter (fun l => decide (l.length ≠ 0))
          = line :: rest.filter (fun l => decide (l.length ≠ 0)) := by
        simp [List.filter_cons, hlen]
      rw [hf]
      simp only [processLines]
      cases update s0 line with
      | error e => rfl
      | ok s1 => exact ih s1
    · have h0 : line.length = 0 := not_not.mp hlen
      have hf : (line :: rest).filter (fun l => decide (l.length ≠ 0))
          = rest.filter (fun l => decide (l.length ≠ 0)) := by
        simp [List.filter_cons, h0]
      rw [hf, ih s0]
      simp only [processLines, update_of_length_zero s0 line h0]

/-- C5: in every state a run from the constructed state reaches, the label and
the progress bar are not both shown; and when the run held a non-empty line,
exactly one of the two is shown. -/
theorem visibility_exclusive (lines : List String) (s : Spinner)
    (h : processLines Spinner.new lines = .ok s) :
    (s.text.visible && s.progress_bar.visible) = false ∧
    ((∃ l ∈ lines, l ≠ "") → s.text.visible = !s.progress_bar.visible) := by
  have hv := processLines_visibility lines Spinner.new s h
  cases hl : lastNonEmpty lines with
  | none =>
    simp only [hl, Prod.mk.injEq] at hv
    refine ⟨?_, fun hex => absurd hl (lastNonEmpty_ne_none_of_mem lines hex)⟩
    rw [hv.1, hv.2]
    rfl
  | some l =>
    simp only [hl, Prod.mk.injEq] at hv
    rw [hv.1, hv.2]
    cases isNumber l <;> simp

/-- C5 (witness): the run over 50, a status text and the empty line. -/
theorem visibility_exclusive_witness :
    processLines Spinner.new ["50", "Installing drivers...", ""] =
      .ok ⟨⟨true, "Installing drivers..."⟩, ⟨false, 5, 100, 50⟩⟩ ∧
    ((true && false) = false ∧
      ((∃ l ∈ ["50", "Installing drivers...", ""], l ≠ "") → true = !false)) :=
  ⟨rfl, visibility_exclusive ["50", "Installing drivers...", ""]
    ⟨⟨true, "Installing drivers..."⟩, ⟨false, 5, 100, 50⟩⟩ rfl⟩

/-- A call of `update` returns unless the line is a number above `INT_MAX`. -/
theorem update_returns (s : Spinner) (line : String)
    (hfit : isNumber line = true → (digitsValue line.data : Int) ≤ INT_MAX) :
    ∃ s1, update s line = .ok s1 := by
  by_cases hlen : line.length = 0
  · exact ⟨s, update_of_length_zero s line hlen⟩
  · have hne : line ≠ "" := by
      intro h
      apply hlen
      rw [h]
      rfl
    cases hnum : isNumber line with
    | false => exact ⟨_, update_of_nondigit s line ((isNumber_eq_false_iff line).mp hnum)⟩
    | true =>
      have hdig := (isNumber_eq_true_iff line).mp hnum
      rw [update_of_digits s line hne hdig, if_neg (not_lt.mpr (hfit hnum))]
      exact ⟨_, rfl⟩

/-- A run returns when none of its lines is a number above `INT_MAX`. -/
theorem processLines_returns (lines : List String) :
    ∀ (s0 : Spinner),
      (∀ l ∈ lines, isNumber l = true → (digitsValue l.data : Int) ≤ INT_MAX) →
      ∃ s, processLines s0 lines = .ok s := by
  induction lines with
  | nil => intro s0 _; exact ⟨s0, rfl⟩
  | cons line rest ih =>
    intro s0 hfit
    obtain ⟨s1, h1⟩ := update_returns s0 line (hfit line (List.mem_cons_self line rest))
    obtain ⟨s, hs⟩ := ih s1 (fun l hl => hfit l (List.mem_cons_of_mem line hl))
    exact ⟨s, by simp only [processLines, h1, hs]⟩

/-- A run from the constructed state in which no line is a number above
`INT_MAX` returns, and the widget then shown is the one its last non-empty
line gives; the run over 50, a status text, the empty line and 100 ends with
the bar shown, the label hidden and the value 100. -/
theorem processLines_fitting_visibility :
    (∀ (lines : List String),
      (∀ l ∈ lines, isNumber l = true → (digitsValue l.data : Int) ≤ INT_MAX) →
      ∃ s, processLines Spinner.new lines = .ok s ∧
        processLines Spinner.new (lines.filter (fun l => l.length ≠ 0)) = .ok s ∧
        (s.text.visible, s.progress_bar.visible) =
          match lastNonEmpty lines with
          | none => (false, false)
          | some l => (!isNumber l, isNumber l)) ∧
    processLines Spinner.new ["50", "Installing drivers...", "", "100"] =
      .ok ⟨⟨false, "100"⟩, ⟨true, 5, 100, 100⟩⟩ := by
  refine ⟨fun lines hfit => ?_, rfl⟩
  obtain ⟨s, hs⟩ := processLines_returns lines Spinner.new hfit
  refine ⟨s, hs, ?_, processLines_visibility lines Spinner.new s hs⟩
  rw [processLines_filter lines Spinner.new, hs]

/-- C6: the run over the lines 2147483648 and abc from the constructed state
does not reach a final state: `std::stoi` throws `out_of_range` on the first
line and the run ends there, although the last non-empty line is abc, which
processed alone ends with the label shown and the bar hidden. The earlier
line decides the outcome. -/
theorem run_aborts_on_earlier_overflow :
    processLines Spinner.new ["2147483648", "abc"] = .error Exception.out_of_range ∧
    lastNonEmpty ["2147483648", "abc"] = some "abc" ∧
    processLines Spinner.new ["abc"] = .ok ⟨⟨true, "abc"⟩, ⟨false, 5, 100, 4⟩⟩ :=
  ⟨rfl, rfl, rfl⟩

/-! ## Leading zeros -/

theorem foldl_digit_replicate_zero (k : Nat) :
    (List.replicate k '0').foldl (fun acc c => 10 * acc + (c.toNat - 48)) 0 = 0 := by
  induction k with
  | zero => rfl
  | succ k ih =>
    rw [List.replicate_succ, List.foldl_cons]
    exact ih

/-- Zeros in front of a run of digits do not change its value. -/
theorem digitsValue_zeros_append (k : Nat) (cs : List Char) :
    digitsValue (List.replicate k '0' ++ cs) = digitsValue cs := by
  unfold digitsValue
  rw [List.foldl_append, foldl_digit_replicate_zero]

theorem zeros_append_data (k : Nat) (line : String) :
    (zeros k ++ line).data = List.replicate k '0' ++ line.data := by
  simp [zeros]

theorem zeros_append_ne_empty (k : Nat) (line : String) (hne : line ≠ "") :
    zeros k ++ line ≠ "" := by
  intro h
  have hd : (zeros k ++ line).data = [] := by rw [h]
  rw [zeros_append_data] at hd
  exact data_ne_nil_of_ne_empty hne (List.append_eq_nil.mp hd).2

theorem zeros_append_digits (k : Nat) (line : String)
    (hdig : ∀ c ∈ line.data, isdigit c = true) :
    ∀ c ∈ (zeros k ++ line).data, isdigit c = true := by
  intro c hc
  rw [zeros_append_data, List.mem_append] at hc
  rcases hc with hc | hc
  · rw [List.eq_of_mem_replicate hc]
    decide
  · exact hdig c hc

/-- C7: for every non-empty digit-only line and every `k`, the line with `k`
zeros in front is classified as a number, `stoi` gives it the same outcome
(the same base 10 value, or the same exception), and `update` leaves the
progress bar as it does for the line itself, from every prior state; the line
007 is a number, parses to 7, and 7 is the value the bar then holds. -/
theorem leading_zeros_same_value :
    (∀ (s : Spinner) (line : String) (k : Nat), line ≠ "" →
      (∀ c ∈ line.data, isdigit c = true) →
      isNumber (zeros k ++ line) = true ∧
      stoi (zeros k ++ line) = stoi line ∧
      (update s (zeros k ++ line)).map (fun s1 => s1.progress_bar) =
        (update s line).map (fun s1 => s1.progress_bar)) ∧
    isNumber "007" = true ∧ stoi "007" = .ok 7 ∧
    update Spinner.new "007" = .ok ⟨⟨false, "007"⟩, ⟨true, 5, 100, 7⟩⟩ := by
  refine ⟨fun s line k hne hdig => ?_, rfl, rfl, rfl⟩
  have hne2 := zeros_append_ne_empty k line hne
  have hdig2 := zeros_append_digits k line hdig
  have hval : digitsValue (zeros k ++ line).data = digitsValue line.data := by
    rw [zeros_append_data, digitsValue_zeros_append]
  refine ⟨(isNumber_eq_true_iff _).mpr hdig2, ?_, ?_⟩
  · rw [stoi_of_digits _ hne2 hdig2, stoi_of_digits _ hne hdig, hval]
  · rw [update_of_digits s _ hne2 hdig2, update_of_digits s _ hne hdig, hval]
    by_cases hbig : INT_MAX < (digitsValue line.data : Int)
    · simp only [hbig, if_true, Except.map]
    · simp only [hbig, if_false, Except.map]

/-- C7 (witness): the line 50 with three zeros in front, from the constructed
state. -/
theorem leading_zeros_same_value_witness :
    "50" ≠ "" ∧ (∀ c ∈ "50".data, isdigit c = true) ∧
    zeros 3 ++ "50" = "00050" ∧
    (isNumber (zeros 3 ++ "50") = true ∧
      stoi (zeros 3 ++ "50") = stoi "50" ∧
      (update Spinner.new (zeros 3 ++ "50")).map (fun s1 => s1.progress_bar) =
        (update Spinner.new "50").map (fun s1 => s1.progress_bar)) :=
  ⟨by decide, by decide, by decide,
    leading_zeros_same_value.1 Spinner.new "50" 3 (by decide) (by decide)⟩

end Spinner

end SpinnerCc
